import Mathlib

/-
Verification of the CCTV_Edge_AI_FYP dataset-curation pipeline.

The development shallowly embeds the three algorithmic cores of the repository:

* `scripts/dedupe_by_threshold.py` — greedy duplicate grouping over a FAISS
  range search (`dedupe_range_search`, `write_outputs`, `l2_normalize`);
* `scripts/assign_clusters.py` — chunked nearest-centroid argmax
  (`compute_argmax_clusters`);
* `scripts/split.py` — the three-phase exact split allocator
  (`apply_caps`, `allocate_exact_splits`, `write_splits`).

Numeric code is embedded over an arbitrary `LinearOrderedCommRing` scalar
(instantiated at `ℚ` for exact real-number reasoning and at `ℤ` for concrete
kernel-evaluated witnesses; an integer-vector instance is a special case of
the rational one, so counterexamples found at `ℤ` are genuine).  Python dicts
become association lists in insertion order, numpy arrays become lists of
rows, and the seeded Mersenne-Twister shuffle is abstracted as an explicit
deterministic state-passing function parameter, which is all the allocator's
determinism contract relies on.
-/

namespace FYP

/-! ### Embedding of `scripts/dedupe_by_threshold.py` -/

/-- Inner product of two vectors (rows), as computed by `real @ unique.T` /
`IndexFlatIP`: sum of componentwise products. -/
def dotIP {α : Type} [LinearOrderedCommRing α] (u v : List α) : α :=
  (List.zipWith (fun a b => a * b) u v).sum

/-- Modelled from the spec: the FAISS `IndexFlatIP.range_search` call used by
`dedupe_range_search` (the FAISS library itself is outside the repository).
Per the spec's contract for `range_search`, query `i` returns every
`(neighbor index, similarity)` pair with similarity ≥ threshold, including the
self match, in ascending index order. -/
def range_search {α : Type} [LinearOrderedCommRing α] (real : List (List α))
    (threshold : α) (i : ℕ) : List (ℕ × α) :=
  ((List.range real.length).filter
      (fun j => decide (threshold ≤ dotIP (real.getD i []) (real.getD j [])))).map
    (fun j => (j, dotIP (real.getD i []) (real.getD j [])))

/-- The body of the inner neighbour loop of `dedupe_range_search`
(`scripts/dedupe_by_threshold.py`, lines 62-67): keep a neighbour `(j, s)`
when `j != i`, `s >= threshold` and `j` is not yet assigned. -/
def groupMembers {α : Type} [LinearOrderedCommRing α] (threshold : α)
    (assigned : List Bool) (i : ℕ) (neigh : List (ℕ × α)) : List (ℕ × α) :=
  neigh.filter
    (fun p => decide (p.1 ≠ i ∧ threshold ≤ p.2 ∧ assigned.getD p.1 false = false))

/-- `for j in group: assigned[j] = True` (line 68-69). -/
def markAssigned (assigned : List Bool) (group : List ℕ) : List Bool :=
  group.foldl (fun a j => a.set j true) assigned

/-- The outer loop of `dedupe_range_search` (lines 53-71): visit indices in
ascending order, skip assigned ones, otherwise emit the group headed by the
representative `i` with similarity literal `1.0`, and mark the whole group
assigned before continuing. -/
def dedupeAux {α : Type} [LinearOrderedCommRing α] (real : List (List α))
    (threshold : α) : List ℕ → List Bool → List (List ℕ) × List (List α)
  | [], _ => ([], [])
  | i :: rest, assigned =>
    if assigned.getD i false then dedupeAux real threshold rest assigned
    else
      let members := groupMembers threshold assigned i (range_search real threshold i)
      let group := i :: members.map Prod.fst
      let sims : List α := 1 :: members.map Prod.snd
      let res := dedupeAux real threshold rest (markAssigned assigned group)
      (group :: res.1, sims :: res.2)

/-- `dedupe_range_search(real, threshold)` from `scripts/dedupe_by_threshold.py`
(lines 34-72): greedy grouping over all indices `0..n-1`, starting from an
all-false `assigned` array. -/
def dedupe_range_search {α : Type} [LinearOrderedCommRing α]
    (real : List (List α)) (threshold : α) : List (List ℕ) × List (List α) :=
  dedupeAux real threshold (List.range real.length)
    (List.replicate real.length false)

/-! #### Structural lemmas about the grouping loop -/

theorem range_search_map_fst {α : Type} [LinearOrderedCommRing α]
    (real : List (List α)) (t : α) (i : ℕ) :
    (range_search real t i).map Prod.fst
      = (List.range real.length).filter
          (fun j => decide (t ≤ dotIP (real.getD i []) (real.getD j []))) := by
  have h : (Prod.fst ∘ fun j : ℕ => (j, dotIP (real.getD i []) (real.getD j []))) = id := rfl
  rw [range_search, List.map_map, h, List.map_id]

theorem range_search_fst_nodup {α : Type} [LinearOrderedCommRing α]
    (real : List (List α)) (t : α) (i : ℕ) :
    ((range_search real t i).map Prod.fst).Nodup := by
  rw [range_search_map_fst]
  exact List.Nodup.filter _ (List.nodup_range _)

theorem range_search_fst_lt {α : Type} [LinearOrderedCommRing α]
    (real : List (List α)) (t : α) (i : ℕ) :
    ∀ p ∈ range_search real t i, p.1 < real.length := by
  intro p hp
  rcases List.mem_map.mp hp with ⟨j, hj, rfl⟩
  exact List.mem_range.mp (List.mem_filter.mp hj).1

theorem groupMembers_sublist {α : Type} [LinearOrderedCommRing α] (t : α)
    (assigned : List Bool) (i : ℕ) (neigh : List (ℕ × α)) :
    (groupMembers t assigned i neigh).Sublist neigh :=
  List.filter_sublist neigh

theorem groupMembers_props {α : Type} [LinearOrderedCommRing α] (t : α)
    (assigned : List Bool) (i : ℕ) (neigh : List (ℕ × α)) :
    ∀ p ∈ groupMembers t assigned i neigh,
      p.1 ≠ i ∧ t ≤ p.2 ∧ assigned.getD p.1 false = false := by
  intro p hp
  have h := (List.mem_filter.mp hp).2
  exact of_decide_eq_true h

theorem markAssigned_length (g : List ℕ) (a : List Bool) :
    (markAssigned a g).length = a.length := by
  induction g generalizing a with
  | nil => rfl
  | cons j g ih =>
    show (markAssigned (a.set j true) g).length = a.length
    rw [ih, List.length_set]

theorem getD_set_true (a : List Bool) (j k : ℕ) (hk : k < a.length) :
    (a.set j true).getD k false = if j = k then true else a.getD k false := by
  have hk2 : k < (a.set j true).length := by rwa [List.length_set]
  rw [List.getD_eq_getElem _ _ hk2, List.getD_eq_getElem _ _ hk, List.getElem_set]

theorem markAssigned_getD (g : List ℕ) (a : List Bool) (k : ℕ) (hk : k < a.length) :
    (markAssigned a g).getD k false = true
      ↔ (a.getD k false = true ∨ k ∈ g) := by
  induction g generalizing a with
  | nil => simp [markAssigned]
  | cons j g ih =>
    show (markAssigned (a.set j true) g).getD k false = true ↔ _
    have hk2 : k < (a.set j true).length := by rwa [List.length_set]
    rw [ih (a.set j true) hk2, getD_set_true a j k hk]
    by_cases hjk : j = k
    · subst hjk
      simp
    · simp [hjk, Ne.symm hjk]

/-- The central invariant of the greedy grouping loop: running `dedupeAux` on a
list of indices that contains every still-unassigned index below `n` yields
groups in which every unassigned index below `n` occurs exactly once and every
already-assigned index occurs zero times. -/
theorem dedupeAux_count {α : Type} [LinearOrderedCommRing α]
    (real : List (List α)) (t : α) :
    ∀ (l : List ℕ) (assigned : List Bool),
      assigned.length = real.length →
      (∀ k, k < real.length → assigned.getD k false = false → k ∈ l) →
      ∀ k, k < real.length →
        ((dedupeAux real t l assigned).1.flatten.count k)
          = if assigned.getD k false then 0 else 1 := by
  intro l
  induction l with
  | nil =>
    intro assigned _ hl k hk
    have hkt : assigned.getD k false = true := by
      cases h : assigned.getD k false with
      | false => exact absurd (hl k hk h) (List.not_mem_nil k)
      | true => rfl
    rw [List.getD_eq_getElem?_getD] at hkt
    simp [dedupeAux, hkt]
  | cons i rest ih =>
    intro assigned hlen hl k hk
    by_cases hi : assigned.getD i false = true
    · have hstep : dedupeAux real t (i :: rest) assigned
          = dedupeAux real t rest assigned := by
        simp only [dedupeAux]
        rw [if_pos hi]
      rw [hstep]
      refine ih assigned hlen ?_ k hk
      intro k2 hk2 hk2f
      have : k2 ∈ i :: rest := hl k2 hk2 hk2f
      rcases List.mem_cons.mp this with h | h
      · subst h; rw [hk2f] at hi; exact absurd hi (by simp)
      · exact h
    · have hifalse : assigned.getD i false = false := by
        cases h : assigned.getD i false with
        | false => rfl
        | true => exact absurd h hi
      set members := groupMembers t assigned i (range_search real t i) with hmem
      set group := i :: members.map Prod.fst with hgroup
      have hstep : dedupeAux real t (i :: rest) assigned
          = (group :: (dedupeAux real t rest (markAssigned assigned group)).1,
             ((1 : α) :: members.map Prod.snd)
               :: (dedupeAux real t rest (markAssigned assigned group)).2) := by
        simp only [dedupeAux]
        rw [if_neg hi]
      have hmlt : ∀ p ∈ members, p.1 < real.length := fun p hp =>
        range_search_fst_lt real t i p ((groupMembers_sublist t assigned i _).mem hp)
      have hmprops := groupMembers_props t assigned i (range_search real t i)
      have hglt : ∀ j ∈ group, j = i ∨ j < real.length := by
        intro j hj
        rcases List.mem_cons.mp hj with h | h
        · exact Or.inl h
        · rcases List.mem_map.mp h with ⟨p, hp, rfl⟩
          exact Or.inr (hmlt p hp)
      have hlen2 : (markAssigned assigned group).length = real.length := by
        rw [markAssigned_length]; exact hlen
      have hmark : ∀ k2, k2 < real.length →
          ((markAssigned assigned group).getD k2 false = true
            ↔ (assigned.getD k2 false = true ∨ k2 ∈ group)) := by
        intro k2 hk2
        exact markAssigned_getD group assigned k2 (by rw [hlen]; exact hk2)
      have hl2 : ∀ k2, k2 < real.length →
          (markAssigned assigned group).getD k2 false = false → k2 ∈ rest := by
        intro k2 hk2 hf
        have hnot : ¬ (assigned.getD k2 false = true ∨ k2 ∈ group) := by
          intro h
          have := (hmark k2 hk2).mpr h
          rw [hf] at this
          exact absurd this (by simp)
        push_neg at hnot
        have h1 : assigned.getD k2 false = false := by
          cases h : assigned.getD k2 false with
          | false => rfl
          | true => exact absurd h hnot.1
        rcases List.mem_cons.mp (hl k2 hk2 h1) with h | h
        · exact absurd (h ▸ List.mem_cons_self i (members.map Prod.fst)) hnot.2
        · exact h
      have ihrest := ih (markAssigned assigned group) hlen2 hl2 k hk
      rw [hstep]
      simp only [List.flatten_cons, List.count_append]
      by_cases hka : assigned.getD k false = true
      · have hknotg : k ∉ group := by
          intro hkg
          rcases List.mem_cons.mp hkg with h | h
          · subst h; rw [hka] at hifalse; exact absurd hifalse (by simp)
          · rcases List.mem_map.mp h with ⟨p, hp, rfl⟩
            have := (hmprops p hp).2.2
            rw [hka] at this
            exact absurd this (by simp)
        have h1 : group.count k = 0 := List.count_eq_zero.mpr hknotg
        have h2 : (markAssigned assigned group).getD k false = true :=
          (hmark k hk).mpr (Or.inl hka)
        rw [h1, ihrest, hka, h2]
        simp
      · have hkafalse : assigned.getD k false = false := by
          cases h : assigned.getD k false with
          | false => rfl
          | true => exact absurd h hka
        by_cases hkg : k ∈ group
        · have hnd : group.Nodup := by
            rw [hgroup]
            refine List.nodup_cons.mpr ⟨?_, ?_⟩
            · intro hmm
              rcases List.mem_map.mp hmm with ⟨p, hp, hpi⟩
              exact absurd hpi (hmprops p hp).1
            · exact List.Nodup.sublist
                ((groupMembers_sublist t assigned i _).map Prod.fst)
                (range_search_fst_nodup real t i)
          have hle1 : group.count k ≤ 1 := List.nodup_iff_count_le_one.mp hnd k
          have hpos : 0 < group.count k := List.count_pos_iff.mpr hkg
          have h1 : group.count k = 1 := le_antisymm hle1 hpos
          have h2 : (markAssigned assigned group).getD k false = true :=
            (hmark k hk).mpr (Or.inr hkg)
          rw [h1, ihrest, hkafalse, h2]
          simp
        · have h1 : group.count k = 0 := List.count_eq_zero.mpr hkg
          have h2 : (markAssigned assigned group).getD k false = false := by
            cases h : (markAssigned assigned group).getD k false with
            | false => rfl
            | true =>
              rcases (hmark k hk).mp h with hcase | hcase
              · rw [hkafalse] at hcase; exact absurd hcase (by simp)
              · exact absurd hcase hkg
          rw [h1, ihrest, hkafalse, h2]
          simp

/-! ### Embedding of `write_outputs` (`scripts/dedupe_by_threshold.py`, lines 75-100) -/

/-- One row of `dedupe_groups.csv`; `is_representative` holds the Python value
`int(k == 0)`. -/
structure DedupeRecord (α : Type) where
  group_id : ℕ
  representative : String
  member_path : String
  similarity_to_rep : α
  deriving DecidableEq, Repr

structure DedupeRow (α : Type) extends DedupeRecord α where
  is_representative : ℕ
  deriving DecidableEq, Repr

/-- The inner loop of `write_outputs` for one group: `for k, (j, s) in
enumerate(zip(idxs, sims))` producing one membership row per member, with
`representative = paths[idxs[0]]` and `is_representative = int(k == 0)`. -/
def recordsOfGroup {α : Type} (paths : List String) (gid : ℕ)
    (idxs : List ℕ) (sims : List α) : List (DedupeRow α) :=
  (List.zip idxs sims).enum.map (fun q =>
    { group_id := gid
      representative := paths.getD (idxs.headD 0) ""
      member_path := paths.getD q.2.1 ""
      similarity_to_rep := q.2.2
      is_representative := if q.1 = 0 then 1 else 0 })

/-- The per-group record tables built by `write_outputs`
(`for gid, (idxs, sims) in enumerate(zip(groups, group_sims), start=1)`);
the CSV is their concatenation. -/
def groupRecordTables {α : Type} (paths : List String)
    (groups : List (List ℕ)) (group_sims : List (List α)) :
    List (List (DedupeRow α)) :=
  (List.zip groups group_sims).enum.map
    (fun g => recordsOfGroup paths (g.1 + 1) g.2.1 g.2.2)

/-- `write_outputs` (lines 75-100): the flattened membership table, the keep
list (one representative path per group) and the remove list (all
non-representative member paths, in order). -/
def write_outputs {α : Type} (paths : List String)
    (groups : List (List ℕ)) (group_sims : List (List α)) :
    List (DedupeRow α) × List String × List String :=
  ((groupRecordTables paths groups group_sims).flatten,
   groups.map (fun idxs => paths.getD (idxs.headD 0) ""),
   (groups.map (fun idxs => (idxs.drop 1).map (fun j => paths.getD j ""))).flatten)

/-- Every (group, sims) pair emitted by the grouping loop has the shape
`(i :: members, 1 :: member_sims)`: the representative sits first and its
recorded similarity is the literal `1.0`. -/
theorem dedupeAux_zip_shape {α : Type} [LinearOrderedCommRing α]
    (real : List (List α)) (t : α) :
    ∀ (l : List ℕ) (assigned : List Bool),
      ∀ pr ∈ List.zip (dedupeAux real t l assigned).1 (dedupeAux real t l assigned).2,
        ∃ i ms ss, pr = (i :: ms, (1 : α) :: ss) := by
  intro l
  induction l with
  | nil =>
    intro assigned pr hpr
    simp [dedupeAux] at hpr
  | cons i rest ih =>
    intro assigned pr hpr
    by_cases hi : assigned.getD i false = true
    · have hstep : dedupeAux real t (i :: rest) assigned
          = dedupeAux real t rest assigned := by
        simp only [dedupeAux]
        rw [if_pos hi]
      rw [hstep] at hpr
      exact ih assigned pr hpr
    · set members := groupMembers t assigned i (range_search real t i) with hmem
      set group := i :: members.map Prod.fst with hgroup
      have hstep : dedupeAux real t (i :: rest) assigned
          = (group :: (dedupeAux real t rest (markAssigned assigned group)).1,
             ((1 : α) :: members.map Prod.snd)
               :: (dedupeAux real t rest (markAssigned assigned group)).2) := by
        simp only [dedupeAux]
        rw [if_neg hi]
      rw [hstep] at hpr
      rcases List.mem_cons.mp hpr with h | h
      · exact ⟨i, members.map Prod.fst, members.map Prod.snd, h⟩
      · exact ih (markAssigned assigned group) pr h

theorem getD_replicate_false (n k : ℕ) :
    (List.replicate n false).getD k false = false := by
  rcases lt_or_le k n with h | h
  · rw [List.getD_eq_getElem _ _ (by simpa using h)]
    simp
  · rw [List.getD_eq_default _ _ (by simpa using h)]

theorem mem_range_search {α : Type} [LinearOrderedCommRing α]
    (real : List (List α)) (t : α) (i : ℕ) (p : ℕ × α) :
    p ∈ range_search real t i
      ↔ p.1 < real.length ∧ t ≤ dotIP (real.getD i []) (real.getD p.1 [])
          ∧ p.2 = dotIP (real.getD i []) (real.getD p.1 []) := by
  simp only [range_search, List.mem_map, List.mem_filter, List.mem_range,
    decide_eq_true_eq]
  constructor
  · rintro ⟨j, ⟨hjr, hjs⟩, rfl⟩
    exact ⟨hjr, hjs, rfl⟩
  · rintro ⟨h1, h2, h3⟩
    refine ⟨p.1, ⟨h1, h2⟩, ?_⟩
    cases p with
    | mk a b => simp only at h3; rw [h3]

/-- The first group emitted on a nonempty input: representative `0` together
with all of its above-threshold neighbours (nothing is assigned yet). -/
theorem dedupe_head {α : Type} [LinearOrderedCommRing α]
    (real : List (List α)) (t : α) (hne : real ≠ []) :
    (dedupe_range_search real t).1.headD []
      = 0 :: (groupMembers t (List.replicate real.length false) 0
          (range_search real t 0)).map Prod.fst := by
  obtain ⟨m, hm⟩ : ∃ m, real.length = m + 1 :=
    ⟨real.length - 1, by have := List.length_pos.mpr hne; omega⟩
  unfold dedupe_range_search
  rw [hm, List.range_succ_eq_map]
  simp only [dedupeAux]
  rw [if_neg (by rw [getD_replicate_false]; simp)]
  rfl

/-- C2: for every embedding set and every threshold, the groups emitted by
`dedupe_range_search` partition the index set `{0..N-1}`: every index below `N`
occurs exactly once across the concatenation of all groups (no omission, no
duplication). -/
theorem dedupe_groups_partition {α : Type} [LinearOrderedCommRing α]
    (real : List (List α)) (t : α) (k : ℕ) (hk : k < real.length) :
    (dedupe_range_search real t).1.flatten.count k = 1 := by
  have h := dedupeAux_count real t (List.range real.length)
    (List.replicate real.length false) (by simp)
    (fun k2 hk2 _ => List.mem_range.mpr hk2) k hk
  unfold dedupe_range_search
  rw [h, getD_replicate_false]
  simp

/-- Witness for C2 at a concrete two-vector input. -/
theorem dedupe_groups_partition_witness :
    0 < ([[(2 : ℤ)], [(3 : ℤ)]] : List (List ℤ)).length ∧
    (dedupe_range_search ([[(2 : ℤ)], [(3 : ℤ)]] : List (List ℤ))
        (0 : ℤ)).1.flatten.count 0 = 1 :=
  ⟨by decide, dedupe_groups_partition _ _ 0 (by decide)⟩

/-- C3 counterexample: four integer vectors (each of Euclidean norm 5, so the
scene is a scaled picture of unit vectors with thresholds 18/25 = 0.72 and
13/25 = 0.52): at the higher threshold 18 the grouping emits 2 groups, at the
strictly lower threshold 13 it emits 3 — lowering the threshold increased the
number of emitted groups, refuting threshold monotonicity. -/
theorem threshold_monotonicity_counterexample :
    (13 : ℤ) < 18 ∧
    (dedupe_range_search ([[3, 4, 0, 0], [5, 0, 0, 0], [4, 0, 3, 0],
        [4, 0, -3, 0]] : List (List ℤ)) (18 : ℤ)).1.length = 2 ∧
    (dedupe_range_search ([[3, 4, 0, 0], [5, 0, 0, 0], [4, 0, 3, 0],
        [4, 0, -3, 0]] : List (List ℤ)) (13 : ℤ)).1.length = 3 ∧
    ¬ ((dedupe_range_search ([[3, 4, 0, 0], [5, 0, 0, 0], [4, 0, 3, 0],
          [4, 0, -3, 0]] : List (List ℤ)) (13 : ℤ)).1.length
        ≤ (dedupe_range_search ([[3, 4, 0, 0], [5, 0, 0, 0], [4, 0, 3, 0],
            [4, 0, -3, 0]] : List (List ℤ)) (18 : ℤ)).1.length) := by
  decide

/-- C3 amended: lowering the threshold never shrinks the *first* emitted group
(every member of representative 0's group at the higher threshold is still in
its group at the lower threshold); the total number of groups, however, is not
monotone in the threshold. -/
theorem dedupe_first_group_antitone {α : Type} [LinearOrderedCommRing α]
    (real : List (List α)) (t1 t2 : α) (hle : t2 ≤ t1) (hne : real ≠ [])
    (j : ℕ) (hj : j ∈ (dedupe_range_search real t1).1.headD []) :
    j ∈ (dedupe_range_search real t2).1.headD [] := by
  rw [dedupe_head real t1 hne] at hj
  rw [dedupe_head real t2 hne]
  rcases List.mem_cons.mp hj with h | h
  · exact h ▸ List.mem_cons_self _ _
  · refine List.mem_cons_of_mem _ ?_
    rcases List.mem_map.mp h with ⟨p, hp, rfl⟩
    have hmemf := List.mem_filter.mp hp
    have hprops : p.1 ≠ 0 ∧ t1 ≤ p.2
        ∧ (List.replicate real.length false).getD p.1 false = false :=
      of_decide_eq_true hmemf.2
    have hrs2 := (mem_range_search real t1 0 p).mp hmemf.1
    have hin2 : p ∈ range_search real t2 0 :=
      (mem_range_search real t2 0 p).mpr ⟨hrs2.1, le_trans hle hrs2.2.1, hrs2.2.2⟩
    refine List.mem_map.mpr ⟨p, List.mem_filter.mpr ⟨hin2, ?_⟩, rfl⟩
    exact decide_eq_true ⟨hprops.1, le_trans hle hprops.2.1, hprops.2.2⟩

/-- Witness for the amended C3 theorem at a concrete input. -/
theorem dedupe_first_group_antitone_witness :
    ((0 : ℤ) ≤ 5 ∧ ([[(1 : ℤ)]] : List (List ℤ)) ≠ [] ∧
      0 ∈ (dedupe_range_search ([[(1 : ℤ)]] : List (List ℤ)) (5 : ℤ)).1.headD []) ∧
    0 ∈ (dedupe_range_search ([[(1 : ℤ)]] : List (List ℤ)) (0 : ℤ)).1.headD [] :=
  ⟨⟨by decide, by decide, by decide⟩,
   dedupe_first_group_antitone _ 5 0 (by decide) (by decide) 0 (by decide)⟩

/-- C7: in every group, the representative occupies the first position with
similarity exactly `1.0`, and in the membership table written by
`write_outputs` the `is_representative` flag is `1` on the first row of each
group table and `0` on every other row (the first row's member path is the
representative path itself). -/
theorem dedupe_representative_invariant {α : Type} [LinearOrderedCommRing α]
    (real : List (List α)) (t : α) (paths : List String) :
    ∀ tbl ∈ groupRecordTables paths (dedupe_range_search real t).1
        (dedupe_range_search real t).2,
      (∃ r0, tbl.head? = some r0 ∧ r0.is_representative = 1 ∧
        r0.similarity_to_rep = 1 ∧ r0.member_path = r0.representative) ∧
      ∀ r ∈ tbl.drop 1, r.is_representative = 0 := by
  intro tbl htbl
  rcases List.mem_map.mp htbl with ⟨g, hg, rfl⟩
  have hzip : g.2 ∈ List.zip (dedupe_range_search real t).1
      (dedupe_range_search real t).2 := by
    cases g with
    | mk n pr =>
      have h := List.mem_enumFrom hg
      rw [h.2.2]
      exact List.getElem_mem _
  obtain ⟨i0, ms, ss, hshape⟩ := dedupeAux_zip_shape real t _ _ g.2 hzip
  rw [hshape]
  constructor
  · exact ⟨{ group_id := g.1 + 1,
             representative := paths.getD i0 "",
             member_path := paths.getD i0 "",
             similarity_to_rep := 1,
             is_representative := 1 }, rfl, rfl, rfl, rfl⟩
  · intro r hr
    simp only [recordsOfGroup, List.zip_cons_cons, List.enum_cons,
      List.map_cons, List.drop_succ_cons, List.drop_zero] at hr
    rcases List.mem_map.mp hr with ⟨q, hq, rfl⟩
    have h1 : 1 ≤ q.1 := by
      cases q with
      | mk a b => exact (List.mem_enumFrom hq).1
    have h0 : ¬ q.1 = 0 := by omega
    simp [h0]

/-- Witness for C7 at a concrete input: two vectors that merge into one group. -/
theorem dedupe_representative_invariant_witness :
    (recordsOfGroup ["a", "b"] 1 [0, 1] [(1 : ℤ), 6]) ∈
      groupRecordTables ["a", "b"]
        (dedupe_range_search ([[(2 : ℤ)], [(3 : ℤ)]] : List (List ℤ)) (0 : ℤ)).1
        (dedupe_range_search ([[(2 : ℤ)], [(3 : ℤ)]] : List (List ℤ)) (0 : ℤ)).2 ∧
    ((∃ r0, (recordsOfGroup ["a", "b"] 1 [0, 1] [(1 : ℤ), 6]).head? = some r0 ∧
        r0.is_representative = 1 ∧ r0.similarity_to_rep = 1 ∧
        r0.member_path = r0.representative) ∧
      ∀ r ∈ (recordsOfGroup ["a", "b"] 1 [0, 1] [(1 : ℤ), 6]).drop 1,
        r.is_representative = 0) :=
  ⟨by decide,
   dedupe_representative_invariant ([[(2 : ℤ)], [(3 : ℤ)]] : List (List ℤ))
     (0 : ℤ) ["a", "b"] _ (by decide)⟩

/-! ### Embedding of `scripts/assign_clusters.py` -/

/-- numpy-style matrix: list of rows plus the intrinsic column count (numpy
arrays carry their shape even when there are zero rows). -/
structure NPMat (α : Type) where
  data : List (List α)
  dim : ℕ
  rect : ∀ r ∈ data, r.length = dim

/-- Errors `compute_argmax_clusters` can raise: the `assert D == D2` dimension
check, and numpy's `argmax` on an empty axis (`M = 0` with at least one query
row). -/
inductive NPErr
  | dimensionMismatch
  | emptyArgmax
  deriving DecidableEq, Repr

/-- `np.argmax` scan: first index attaining the maximum. -/
def argmaxAux {α : Type} [LinearOrder α] : ℕ × α → ℕ → List α → ℕ × α
  | best, _, [] => best
  | best, i, x :: xs => argmaxAux (if best.2 < x then (i, x) else best) (i + 1) xs

/-- `idx = sims.argmax(axis=1); val = sims[…, idx]` for one row of
similarities: the first index of the maximum together with the maximum value
(numpy returns the lowest index on ties). -/
def argmaxList {α : Type} [LinearOrder α] [Zero α] : List α → ℕ × α
  | [] => (0, 0)
  | x :: xs => argmaxAux (0, x) 1 xs

/-- Number of chunk iterations of `for start in range(0, N, chunk_size)`. -/
def numChunks (n c : ℕ) : ℕ := (n + c - 1) / c

/-- `compute_argmax_clusters(real, unique, chunk_size)` from
`scripts/assign_clusters.py` (lines 37-58): check `D == D2` first (modelled as
the `dimensionMismatch` error, raised before any chunk is processed), then for
each chunk `real[start:end]` compute `sims = chunk @ unique.T` and per-row
first-max argmax; `emptyArgmax` models numpy's error when `argmax` runs on an
empty axis (no centroids but at least one query). -/
def compute_argmax_clusters {α : Type} [LinearOrderedCommRing α]
    (real unique : NPMat α) (chunk_size : ℕ) : Except NPErr (List (ℕ × α)) :=
  if real.dim ≠ unique.dim then Except.error NPErr.dimensionMismatch
  else if unique.data.length = 0 ∧ real.data.length ≠ 0 then
    Except.error NPErr.emptyArgmax
  else Except.ok
    (((List.range (numChunks real.data.length chunk_size)).map
        (fun kk => ((real.data.drop (kk * chunk_size)).take chunk_size).map
          (fun row => argmaxList (unique.data.map (fun u => dotIP row u))))).flatten)

/-- Slicing a list into chunks of size `c ≥ 1` by `range`-indexed
`drop`/`take` and flattening recovers the list. -/
theorem chunks_flatten {β : Type} (c : ℕ) (hc : 1 ≤ c) :
    ∀ (n : ℕ) (l : List β), l.length ≤ n →
      ((List.range (numChunks l.length c)).map
        (fun k => (l.drop (k * c)).take c)).flatten = l := by
  intro n
  induction n with
  | zero =>
    intro l hl
    have h0 : l = [] := List.length_eq_zero.mp (Nat.le_zero.mp hl)
    subst h0
    have hn : numChunks 0 c = 0 := by
      unfold numChunks
      exact Nat.div_eq_of_lt (by omega)
    simp [hn]
  | succ n ih =>
    intro l hl
    cases l with
    | nil =>
      have hn : numChunks 0 c = 0 := by
        unfold numChunks
        exact Nat.div_eq_of_lt (by omega)
      simp [hn]
    | cons x xs =>
      have hlen : (x :: xs).length = xs.length + 1 := rfl
      have hdroplen : ((x :: xs).drop c).length = xs.length + 1 - c := by
        rw [List.length_drop, hlen]
      have hnum : numChunks (xs.length + 1) c
          = numChunks (xs.length + 1 - c) c + 1 := by
        unfold numChunks
        rcases le_or_lt c (xs.length + 1) with hcase | hcase
        · have e1 : xs.length + 1 + c - 1 = xs.length + c := by omega
          have e2 : xs.length + 1 - c + c - 1 = xs.length + 1 - 1 := by omega
          rw [e1, e2]
          have e3 : xs.length + c = xs.length + 1 - 1 + c := by omega
          rw [e3, Nat.add_div_right _ (by omega : 0 < c)]
        · have e1 : xs.length + 1 - c = 0 := by omega
          rw [e1]
          have e2 : xs.length + 1 + c - 1 = xs.length + 1 - 1 + c := by omega
          rw [e2, Nat.add_div_right _ (by omega : 0 < c)]
          have e3 : (xs.length + 1 - 1) / c = 0 := Nat.div_eq_of_lt (by omega)
          have e4 : (0 + c - 1) / c = 0 := Nat.div_eq_of_lt (by omega)
          rw [e3, e4]
      rw [hlen, hnum, List.range_succ_eq_map, List.map_cons, List.flatten_cons]
      have hzero : ((x :: xs).drop (0 * c)).take c = (x :: xs).take c := by
        rw [Nat.zero_mul, List.drop_zero]
      rw [hzero, List.map_map]
      have hshift : ∀ k : ℕ,
          ((x :: xs).drop (Nat.succ k * c)).take c
            = (((x :: xs).drop c).drop (k * c)).take c := by
        intro k
        rw [List.drop_drop]
        congr 2
        rw [Nat.succ_mul, Nat.add_comm]
      have hmapeq : (List.range (numChunks (xs.length + 1 - c) c)).map
            ((fun k => ((x :: xs).drop (k * c)).take c) ∘ Nat.succ)
          = (List.range (numChunks (((x :: xs).drop c).length) c)).map
            (fun k => (((x :: xs).drop c).drop (k * c)).take c) := by
        rw [hdroplen]
        exact List.map_congr_left (fun k _ => hshift k)
      rw [hmapeq, ih ((x :: xs).drop c) (by rw [hdroplen]; omega)]
      exact List.take_append_drop c (x :: xs)

/-- C5: for equal-dimension matrices with at least one centroid, the chunked
argmax equals the unchunked per-row argmax for every chunk size ≥ 1 — the
result is independent of `chunk_size` (in particular identical for chunk
sizes 1 and N). -/
theorem compute_argmax_chunk_invariant {α : Type} [LinearOrderedCommRing α]
    (real unique : NPMat α) (c : ℕ) (hc : 1 ≤ c) (hd : real.dim = unique.dim)
    (hm : 1 ≤ unique.data.length) :
    compute_argmax_clusters real unique c
      = Except.ok (real.data.map
          (fun row => argmaxList (unique.data.map (fun u => dotIP row u)))) := by
  unfold compute_argmax_clusters
  rw [if_neg (by simp [hd])]
  rw [if_neg (by rintro ⟨h0, _⟩; omega)]
  congr 1
  have h1 : ((List.range (numChunks real.data.length c)).map
        (fun kk => ((real.data.drop (kk * c)).take c).map
          (fun row => argmaxList (unique.data.map (fun u => dotIP row u))))).flatten
      = (((List.range (numChunks real.data.length c)).map
          (fun kk => (real.data.drop (kk * c)).take c)).flatten).map
            (fun row => argmaxList (unique.data.map (fun u => dotIP row u))) := by
    rw [List.map_flatten, List.map_map]
    rfl
  rw [h1, chunks_flatten c hc real.data.length real.data (le_refl _)]

/-- Concrete matrices for the C5 witness. -/
def matReal : NPMat ℤ := ⟨[[2], [-1], [3]], 1, by decide⟩

def matUnique : NPMat ℤ := ⟨[[1], [2]], 1, by decide⟩

/-- Witness for C5 at chunk size 2 over a 3×1 query matrix. -/
theorem compute_argmax_chunk_invariant_witness :
    (1 ≤ 2 ∧ matReal.dim = matUnique.dim ∧ 1 ≤ matUnique.data.length) ∧
    compute_argmax_clusters matReal matUnique 2
      = Except.ok (matReal.data.map
          (fun row => argmaxList (matUnique.data.map (fun u => dotIP row u)))) :=
  ⟨⟨by decide, by decide, by decide⟩,
   compute_argmax_chunk_invariant matReal matUnique 2 (by decide) (by decide)
     (by decide)⟩

/-- C8: `compute_argmax_clusters` fails with `dimensionMismatch` exactly when
the two embedding widths differ; the check is the first thing the function
does, before any chunked similarity computation, and for equal widths this
error is never produced. -/
theorem compute_argmax_dimension_check {α : Type} [LinearOrderedCommRing α]
    (real unique : NPMat α) (chunk_size : ℕ) :
    compute_argmax_clusters real unique chunk_size
        = Except.error NPErr.dimensionMismatch
      ↔ real.dim ≠ unique.dim := by
  unfold compute_argmax_clusters
  by_cases h : real.dim ≠ unique.dim
  · simp [h]
  · rw [if_neg h]
    by_cases h2 : unique.data.length = 0 ∧ real.data.length ≠ 0
    · rw [if_pos h2]
      simp [h]
    · rw [if_neg h2]
      simp [h]

/-! ### Embedding of `l2_normalize` (`scripts/dedupe_by_threshold.py`, lines 28-31) -/

/-- Squared Euclidean norm of one row. -/
def sqNorm (v : List ℚ) : ℚ := (v.map (fun x => x * x)).sum

/-- The `1e-6` minimum-norm floor of `l2_normalize`. -/
def norm_floor : ℚ := 1 / 1000000

/-- Squared norm of a row after `l2_normalize`: the source divides row `v` by
`max(‖v‖, 1e-6)`, so the squared norm of the output row is
`sqNorm v / (max(‖v‖, 1e-6))²`, and since squaring is monotone on
nonnegatives, `(max(‖v‖, 1e-6))² = max(sqNorm v, (1e-6)²)`.  Working with
squares keeps the whole computation inside `ℚ` (no square roots). -/
def l2_normalize_rowSqNorm (v : List ℚ) : ℚ :=
  sqNorm v / max (sqNorm v) (norm_floor * norm_floor)

/-- C10 counterexample: the zero row is mapped by `l2_normalize` to the zero
row (division by the floor `1e-6`), whose norm is `0`, not `1` — the unit-norm
invariant does not hold for every input row. -/
theorem l2_normalize_zero_row_counterexample :
    l2_normalize_rowSqNorm [(0 : ℚ)] ≠ 1 := by
  simp [l2_normalize_rowSqNorm, sqNorm]

/-- C10 amended: every row whose norm is at least the floor `1e-6`
(equivalently, squared norm at least `1e-12`) is normalized to exactly unit
norm; rows strictly below the floor are merely scaled by `1e6` and keep norm
below `1` (the zero row stays zero). -/
theorem l2_normalize_unit_norm (v : List ℚ)
    (h : norm_floor * norm_floor ≤ sqNorm v) :
    l2_normalize_rowSqNorm v = 1 := by
  unfold l2_normalize_rowSqNorm
  rw [max_eq_left h]
  refine div_self ?_
  have hpos : 0 < norm_floor * norm_floor := by norm_num [norm_floor]
  exact ne_of_gt (lt_of_lt_of_le hpos h)

/-- Witness for the amended C10 theorem on the unit row `[1]`. -/
theorem l2_normalize_unit_norm_witness :
    norm_floor * norm_floor ≤ sqNorm [(1 : ℚ)] ∧
    l2_normalize_rowSqNorm [(1 : ℚ)] = 1 :=
  ⟨by norm_num [sqNorm, norm_floor],
   l2_normalize_unit_norm _ (by norm_num [sqNorm, norm_floor])⟩

/-! ### Embedding of `scripts/split.py`

A `cluster_to_images` dict becomes an association list in insertion order
(keys are distinct in a Python dict; theorems that need this take a `Nodup`
hypothesis).  The seeded `random.seed` / `random.shuffle` pair is abstracted
as an explicit deterministic generator: a `seedInit : ℕ → R` producing the
generator state from the seed and a pure `shuffleFn : R → List String →
List String × R` threading that state, which is exactly the behaviour of the
seeded Mersenne Twister the source relies on. -/

/-- The three split names. -/
inductive Split
  | train
  | val
  | test
  deriving DecidableEq, Repr

/-- `splits_list = ['train', 'val', 'test']` (line 93). -/
def splits_list : List Split := [Split.train, Split.val, Split.test]

/-- A `{'train': _, 'val': _, 'test': _}` counter dict. -/
structure Totals where
  trainN : ℕ
  valN : ℕ
  testN : ℕ
  deriving DecidableEq, Repr

def Totals.get (t : Totals) : Split → ℕ
  | Split.train => t.trainN
  | Split.val => t.valN
  | Split.test => t.testN

/-- `counts[split] += size`. -/
def Totals.bump (t : Totals) (s : Split) (k : ℕ) : Totals :=
  match s with
  | Split.train => { t with trainN := t.trainN + k }
  | Split.val => { t with valN := t.valN + k }
  | Split.test => { t with testN := t.testN + k }

/-- `sum(counts.values())`. -/
def Totals.total (t : Totals) : ℕ := t.trainN + t.valN + t.testN

/-- The `allocation` dict: per split, the list of cluster keys it owns, in
append order. -/
structure Alloc where
  trainKeys : List String
  valKeys : List String
  testKeys : List String
  deriving DecidableEq, Repr

def Alloc.get (a : Alloc) : Split → List String
  | Split.train => a.trainKeys
  | Split.val => a.valKeys
  | Split.test => a.testKeys

/-- `allocation[split].append(cluster_key)`. -/
def Alloc.push (a : Alloc) (s : Split) (key : String) : Alloc :=
  match s with
  | Split.train => { a with trainKeys := a.trainKeys ++ [key] }
  | Split.val => { a with valKeys := a.valKeys ++ [key] }
  | Split.test => { a with testKeys := a.testKeys ++ [key] }

/-- All owned keys, train ++ val ++ test. -/
def Alloc.allKeys (a : Alloc) : List String :=
  a.trainKeys ++ a.valKeys ++ a.testKeys

/-- `os.path.basename`: the characters after the last `/`. -/
def basenameChars (cs : List Char) : List Char :=
  cs.foldl (fun acc c => if c = '/' then [] else acc ++ [c]) []

def basename (p : String) : String := ⟨basenameChars p.data⟩

/-- `basename.startswith('night_bg_')` (line 115). -/
def startsWithChars : List Char → List Char → Bool
  | [], _ => true
  | _ :: _, [] => false
  | p :: ps, c :: cs => p == c && startsWithChars ps cs

def is_night (bn : String) : Bool := startsWithChars "night_bg_".data bn.data

/-- The hard-coded `capped_assignment` pin table of STEP 1 (lines 102-106). -/
def capped_assignment : List (String × Split) :=
  [("night_bg_003.jpg", Split.train), ("night_bg_002.jpg", Split.val),
   ("night_bg_005.jpg", Split.test)]

/-- `basename in capped_assignment` / `capped_assignment[basename]`. -/
def lookupSplit (bn : String) : Option Split := List.lookup bn capped_assignment

/-- State carried by `allocate_exact_splits`'s STEP 1 loop. -/
structure AllocState where
  alloc : Alloc
  counts : Totals
  day_counts : Totals
  night_counts : Totals
  deriving DecidableEq, Repr

structure Phase1Out where
  st : AllocState
  night_clusters : List (String × String × ℕ)
  day_clusters : List (String × String × ℕ)
  deriving DecidableEq, Repr

/-- One iteration of the STEP 1 loop (lines 112-127): pinned clusters go
straight into their designated split (size added to `counts` and to
`night_counts`); otherwise the cluster is queued as a night or day cluster
according to the `night_bg_` prefix of its basename. -/
def phase1_step (acc : Phase1Out) (c : String × List String) : Phase1Out :=
  let bn := basename c.1
  let size := c.2.length
  match lookupSplit bn with
  | some s =>
    { acc with st :=
        { acc.st with
          alloc := acc.st.alloc.push s c.1
          counts := acc.st.counts.bump s size
          night_counts := acc.st.night_counts.bump s size } }
  | none =>
    if is_night bn then
      { acc with night_clusters := acc.night_clusters ++ [(c.1, bn, size)] }
    else
      { acc with day_clusters := acc.day_clusters ++ [(c.1, bn, size)] }

def initAllocState : AllocState :=
  ⟨⟨[], [], []⟩, ⟨0, 0, 0⟩, ⟨0, 0, 0⟩, ⟨0, 0, 0⟩⟩

/-- STEP 1 over the whole inventory. -/
def phase1 (inv : List (String × List String)) : Phase1Out :=
  inv.foldl phase1_step ⟨initAllocState, [], []⟩

/-- `max(d, key=d.get)` over the `{'train','val','test'}` dict built in
`splits_list` order: Python's `max` keeps the first element attaining the
maximum, replacing the current best only on a strictly greater key. -/
def argmax_split {γ : Type} [LinearOrder γ] (f : Split → γ) : Split :=
  (splits_list.drop 1).foldl (fun best s => if f best < f s then s else best)
    (splits_list.headD Split.train)

/-- `target_ratios = {'train': 0.70, 'val': 0.20, 'test': 0.10}` (line 140). -/
def target_share : Split → ℚ
  | Split.train => 70 / 100
  | Split.val => 20 / 100
  | Split.test => 10 / 100

/-- STEP 2 deficit of one split: target ratio minus current fraction of all
images allocated so far (`0` when nothing is allocated yet, lines 144-148). -/
def deficit (st : AllocState) (s : Split) : ℚ :=
  target_share s -
    (if 0 < st.counts.total then (st.counts.get s : ℚ) / (st.counts.total : ℚ)
     else 0)

/-- One iteration of STEP 2 (lines 142-153): assign the night cluster to the
split with the largest deficit and update `counts`/`night_counts` immediately. -/
def phase2_step (st : AllocState) (c : String × String × ℕ) : AllocState :=
  let best := argmax_split (deficit st)
  { st with
    alloc := st.alloc.push best c.1
    counts := st.counts.bump best c.2.2
    night_counts := st.night_counts.bump best c.2.2 }

/-- One iteration of STEP 3 (lines 158-167): assign the day cluster to the
most night-heavy split (largest `night_counts - day_counts`) and update
`counts`/`day_counts` immediately. -/
def phase3_step (st : AllocState) (c : String × String × ℕ) : AllocState :=
  let best := argmax_split
    (fun s => (st.night_counts.get s : ℤ) - (st.day_counts.get s : ℤ))
  { st with
    alloc := st.alloc.push best c.1
    counts := st.counts.bump best c.2.2
    day_counts := st.day_counts.bump best c.2.2 }

/-- `list.sort(key=lambda x: x[2], reverse=True)` — stable largest-first sort
(Python's sort is stable; on equal sizes the original order is kept; any two
stable sorts under the same total preorder key agree, so a stable insertion
sort is an exact model of Timsort's result). -/
def sortBySizeDesc (l : List (String × String × ℕ)) : List (String × String × ℕ) :=
  l.insertionSort (fun a b => b.2.2 ≤ a.2.2)

/-- Per-split statistics dict built at lines 170-176. -/
structure SplitStats where
  day : ℕ
  night : ℕ
  total : ℕ
  deriving DecidableEq, Repr

/-- `allocate_exact_splits` (`scripts/split.py`, lines 77-178): STEP 1
pinning, STEP 2 greedy night allocation over the size-sorted night queue,
STEP 3 greedy day allocation over the size-sorted day queue. -/
def allocate_exact_splits (cluster_to_images : List (String × List String)) :
    Alloc × (Split → SplitStats) :=
  let p1 := phase1 cluster_to_images
  let st2 := (sortBySizeDesc p1.night_clusters).foldl phase2_step p1.st
  let st3 := (sortBySizeDesc p1.day_clusters).foldl phase3_step st2
  (st3.alloc,
   fun s => ⟨st3.day_counts.get s, st3.night_counts.get s, st3.counts.get s⟩)

/-- The hard-coded `caps` table of `main` (lines 286-290). -/
def caps_table : List (String × ℕ) :=
  [("night_bg_003.jpg", 500), ("night_bg_002.jpg", 400), ("night_bg_005.jpg", 400)]

/-- `cap_cluster` (lines 47-52): re-seed, shuffle a copy, truncate. -/
def cap_cluster {R : Type} (seedInit : ℕ → R)
    (shuffleFn : R → List String → List String × R)
    (images : List String) (cap_size : ℕ) (seed : ℕ) : List String :=
  ((shuffleFn (seedInit seed) images).1).take cap_size

/-- `apply_caps` (lines 55-74): cap clusters listed in the cap table by
basename, pass others through unchanged. -/
def apply_caps {R : Type} (seedInit : ℕ → R)
    (shuffleFn : R → List String → List String × R)
    (inv : List (String × List String)) (seed : ℕ) :
    List (String × List String) :=
  inv.map (fun c =>
    match List.lookup (basename c.1) caps_table with
    | some cap => (c.1, cap_cluster seedInit shuffleFn c.2 cap seed)
    | none => c)

/-- `'\n'.join(images) + ('\n' if images else '')` (line 206). -/
def fileContent (images : List String) : String :=
  String.intercalate "\n" images ++ (if images.isEmpty then "" else "\n")

/-- `images` gathered for one split before the shuffle (lines 192-194). -/
def gather (inv : List (String × List String)) (alloc : Alloc) (s : Split) :
    List String :=
  ((alloc.get s).map (fun key => (List.lookup key inv).getD [])).flatten

/-- `write_splits` (lines 181-208): seed once, then shuffle each split's
gathered image list in sequence (threading the generator state) and render
the three file contents. -/
def write_splits {R : Type} (seedInit : ℕ → R)
    (shuffleFn : R → List String → List String × R)
    (alloc : Alloc) (inv : List (String × List String)) (seed : ℕ) :
    String × String × String :=
  let r0 := seedInit seed
  let tr := shuffleFn r0 (gather inv alloc Split.train)
  let va := shuffleFn tr.2 (gather inv alloc Split.val)
  let te := shuffleFn va.2 (gather inv alloc Split.test)
  (fileContent tr.1, fileContent va.1, fileContent te.1)

/-- The `main` pipeline of `scripts/split.py` restricted to its computational
core: cap, allocate, render the three split files. -/
def run_split_pipeline {R : Type} (seedInit : ℕ → R)
    (shuffleFn : R → List String → List String × R)
    (inv : List (String × List String)) (seed : ℕ) :
    (Alloc × (Split → SplitStats)) × (String × String × String) :=
  let capped := apply_caps seedInit shuffleFn inv seed
  let res := allocate_exact_splits capped
  (res, write_splits seedInit shuffleFn res.1 capped seed)

/-! #### Behaviour of the STEP 1 loop -/

theorem Alloc.get_push (a : Alloc) (s0 s : Split) (key : String) :
    (a.push s0 key).get s = if s0 = s then a.get s ++ [key] else a.get s := by
  cases s0 <;> cases s <;> simp [Alloc.push, Alloc.get]

theorem Totals.get_bump (t : Totals) (s0 s : Split) (k : ℕ) :
    (t.bump s0 k).get s = t.get s + if s0 = s then k else 0 := by
  cases s0 <;> cases s <;> simp [Totals.bump, Totals.get]

/-- The clusters of the inventory pinned to split `s` by the STEP 1 pin table. -/
def pinnedTo (inv : List (String × List String)) (s : Split) :
    List (String × List String) :=
  inv.filter (fun c => decide (lookupSplit (basename c.1) = some s))

/-- The `night_clusters` queue STEP 1 builds. -/
def nightPool (inv : List (String × List String)) : List (String × String × ℕ) :=
  (inv.filter (fun c =>
      decide (lookupSplit (basename c.1) = none ∧ is_night (basename c.1) = true))).map
    (fun c => (c.1, basename c.1, c.2.length))

/-- The `day_clusters` queue STEP 1 builds. -/
def dayPool (inv : List (String × List String)) : List (String × String × ℕ) :=
  (inv.filter (fun c =>
      decide (lookupSplit (basename c.1) = none ∧ is_night (basename c.1) = false))).map
    (fun c => (c.1, basename c.1, c.2.length))

/-- Full characterisation of the STEP 1 loop from any starting state: pinned
clusters land in their designated split's ownership list and totals
(`counts` and `night_counts` both grow by the pinned sizes, `day_counts`
is untouched), and the unpinned clusters are queued into the night/day pools
in inventory order. -/
theorem phase1_fold_spec (inv : List (String × List String)) :
    ∀ (acc : Phase1Out) (s : Split),
      ((inv.foldl phase1_step acc).st.alloc.get s
          = acc.st.alloc.get s ++ (pinnedTo inv s).map Prod.fst)
      ∧ ((inv.foldl phase1_step acc).st.counts.get s
          = acc.st.counts.get s + ((pinnedTo inv s).map (fun c => c.2.length)).sum)
      ∧ ((inv.foldl phase1_step acc).st.night_counts.get s
          = acc.st.night_counts.get s
            + ((pinnedTo inv s).map (fun c => c.2.length)).sum)
      ∧ ((inv.foldl phase1_step acc).st.day_counts.get s
          = acc.st.day_counts.get s)
      ∧ ((inv.foldl phase1_step acc).night_clusters
          = acc.night_clusters ++ nightPool inv)
      ∧ ((inv.foldl phase1_step acc).day_clusters
          = acc.day_clusters ++ dayPool inv) := by
  induction inv with
  | nil =>
    intro acc s
    simp [pinnedTo, nightPool, dayPool]
  | cons c inv ih =>
    intro acc s
    rw [List.foldl_cons]
    rcases hlk : lookupSplit (basename c.1) with _ | s0
    · have hstep : phase1_step acc c
          = (if is_night (basename c.1) then
              { acc with night_clusters :=
                  acc.night_clusters ++ [(c.1, basename c.1, c.2.length)] }
            else
              { acc with day_clusters :=
                  acc.day_clusters ++ [(c.1, basename c.1, c.2.length)] }) := by
        simp only [phase1_step, hlk]
      cases hni : is_night (basename c.1) with
      | false =>
        rw [hstep, if_neg (by simp [hni])]
        have hpin : pinnedTo (c :: inv) s = pinnedTo inv s := by
          simp [pinnedTo, List.filter_cons, hlk]
        have hnp : nightPool (c :: inv) = nightPool inv := by
          simp [nightPool, List.filter_cons, hlk, hni]
        have hdp : dayPool (c :: inv)
            = (c.1, basename c.1, c.2.length) :: dayPool inv := by
          simp [dayPool, List.filter_cons, hlk, hni]
        have h := ih { acc with day_clusters :=
            acc.day_clusters ++ [(c.1, basename c.1, c.2.length)] } s
        refine ⟨?_, ?_, ?_, ?_, ?_, ?_⟩
        · rw [h.1, hpin]
        · rw [h.2.1, hpin]
        · rw [h.2.2.1, hpin]
        · rw [h.2.2.2.1]
        · rw [h.2.2.2.2.1, hnp]
        · rw [h.2.2.2.2.2, hdp]
          simp
      | true =>
        rw [hstep, if_pos (by simp [hni])]
        have hpin : pinnedTo (c :: inv) s = pinnedTo inv s := by
          simp [pinnedTo, List.filter_cons, hlk]
        have hnp : nightPool (c :: inv)
            = (c.1, basename c.1, c.2.length) :: nightPool inv := by
          simp [nightPool, List.filter_cons, hlk, hni]
        have hdp : dayPool (c :: inv) = dayPool inv := by
          simp [dayPool, List.filter_cons, hlk, hni]
        have h := ih { acc with night_clusters :=
            acc.night_clusters ++ [(c.1, basename c.1, c.2.length)] } s
        refine ⟨?_, ?_, ?_, ?_, ?_, ?_⟩
        · rw [h.1, hpin]
        · rw [h.2.1, hpin]
        · rw [h.2.2.1, hpin]
        · rw [h.2.2.2.1]
        · rw [h.2.2.2.2.1, hnp]
          simp
        · rw [h.2.2.2.2.2, hdp]
    · have hstep : phase1_step acc c
          = { acc with st :=
              { acc.st with
                alloc := acc.st.alloc.push s0 c.1
                counts := acc.st.counts.bump s0 c.2.length
                night_counts := acc.st.night_counts.bump s0 c.2.length } } := by
        simp only [phase1_step, hlk]
      rw [hstep]
      have hnp : nightPool (c :: inv) = nightPool inv := by
        simp [nightPool, List.filter_cons, hlk]
      have hdp : dayPool (c :: inv) = dayPool inv := by
        simp [dayPool, List.filter_cons, hlk]
      have h := ih { acc with st :=
          { acc.st with
            alloc := acc.st.alloc.push s0 c.1
            counts := acc.st.counts.bump s0 c.2.length
            night_counts := acc.st.night_counts.bump s0 c.2.length } } s
      by_cases hs : s0 = s
      · subst hs
        have hpin : pinnedTo (c :: inv) s0 = c :: pinnedTo inv s0 := by
          simp [pinnedTo, List.filter_cons, hlk]
        refine ⟨?_, ?_, ?_, ?_, ?_, ?_⟩
        · rw [h.1, hpin]
          simp [Alloc.get_push]
        · rw [h.2.1, hpin]
          simp [Totals.get_bump]
          omega
        · rw [h.2.2.1, hpin]
          simp [Totals.get_bump]
          omega
        · rw [h.2.2.2.1]
        · rw [h.2.2.2.2.1, hnp]
        · rw [h.2.2.2.2.2, hdp]
      · have hpin : pinnedTo (c :: inv) s = pinnedTo inv s := by
          simp only [pinnedTo, List.filter_cons]
          rw [hlk]
          simp [hs]
        refine ⟨?_, ?_, ?_, ?_, ?_, ?_⟩
        · rw [h.1, hpin]
          simp [Alloc.get_push, hs]
        · rw [h.2.1, hpin]
          simp [Totals.get_bump, hs]
        · rw [h.2.2.1, hpin]
          simp [Totals.get_bump, hs]
        · rw [h.2.2.2.1]
        · rw [h.2.2.2.2.1, hnp]
        · rw [h.2.2.2.2.2, hdp]

/-- Every key in the hard-coded pin table names a night cluster
(`night_bg_` prefix), so a pinned cluster's images are all night images. -/
theorem lookupSplit_is_night (bn : String) (s : Split)
    (h : lookupSplit bn = some s) : is_night bn = true := by
  have hcases : bn = "night_bg_003.jpg" ∨ bn = "night_bg_002.jpg"
      ∨ bn = "night_bg_005.jpg" := by
    unfold lookupSplit capped_assignment at h
    simp only [List.lookup] at h
    by_cases h1 : (bn == "night_bg_003.jpg") = true
    · exact Or.inl (eq_of_beq h1)
    · rw [Bool.eq_false_iff.mpr h1] at h
      simp only [ite_false] at h
      by_cases h2 : (bn == "night_bg_002.jpg") = true
      · exact Or.inr (Or.inl (eq_of_beq h2))
      · rw [Bool.eq_false_iff.mpr h2] at h
        simp only [ite_false] at h
        by_cases h3 : (bn == "night_bg_005.jpg") = true
        · exact Or.inr (Or.inr (eq_of_beq h3))
        · rw [Bool.eq_false_iff.mpr h3] at h
          simp at h
  rcases hcases with h | h | h <;> (subst h; decide)

/-- C4: STEP 1 pinning — for the pin-table clusters, `phase1` (the state the
allocator hands to STEPs 2 and 3) has already placed each pinned cluster in
its designated partition's ownership list, removed it from both greedy pools,
and accumulated its counts with the correct tag bookkeeping: the partition's
total and night totals are exactly the summed sizes of its pinned clusters
(every pinned cluster is night-tagged, so its day count is 0) and the day
totals are untouched (0 from the initial state). -/
theorem phase1_pinning (inv : List (String × List String)) (s : Split) :
    (phase1 inv).st.counts.get s
        = ((pinnedTo inv s).map (fun c => c.2.length)).sum ∧
    (phase1 inv).st.night_counts.get s
        = ((pinnedTo inv s).map (fun c => c.2.length)).sum ∧
    (phase1 inv).st.day_counts.get s = 0 ∧
    (phase1 inv).st.alloc.get s = (pinnedTo inv s).map Prod.fst ∧
    (∀ c ∈ inv, lookupSplit (basename c.1) = some s →
      c.1 ∈ (phase1 inv).st.alloc.get s ∧
      (c.1, basename c.1, c.2.length) ∉ (phase1 inv).night_clusters ∧
      (c.1, basename c.1, c.2.length) ∉ (phase1 inv).day_clusters ∧
      is_night (basename c.1) = true) := by
  have h := phase1_fold_spec inv ⟨initAllocState, [], []⟩ s
  have halloc : (phase1 inv).st.alloc.get s = (pinnedTo inv s).map Prod.fst := by
    have := h.1
    rw [show (⟨initAllocState, [], []⟩ : Phase1Out).st.alloc.get s = []
          by cases s <;> rfl] at this
    simpa [phase1] using this
  have hcounts : (phase1 inv).st.counts.get s
      = ((pinnedTo inv s).map (fun c => c.2.length)).sum := by
    have := h.2.1
    rw [show (⟨initAllocState, [], []⟩ : Phase1Out).st.counts.get s = 0
          by cases s <;> rfl] at this
    simpa [phase1] using this
  have hnight : (phase1 inv).st.night_counts.get s
      = ((pinnedTo inv s).map (fun c => c.2.length)).sum := by
    have := h.2.2.1
    rw [show (⟨initAllocState, [], []⟩ : Phase1Out).st.night_counts.get s = 0
          by cases s <;> rfl] at this
    simpa [phase1] using this
  have hday : (phase1 inv).st.day_counts.get s = 0 := by
    have := h.2.2.2.1
    rw [show (⟨initAllocState, [], []⟩ : Phase1Out).st.day_counts.get s = 0
          by cases s <;> rfl] at this
    simpa [phase1] using this
  have hnclusters : (phase1 inv).night_clusters = nightPool inv := by
    have := h.2.2.2.2.1
    simpa [phase1] using this
  have hdclusters : (phase1 inv).day_clusters = dayPool inv := by
    have := h.2.2.2.2.2
    simpa [phase1] using this
  refine ⟨hcounts, hnight, hday, halloc, ?_⟩
  intro c hc hpin
  refine ⟨?_, ?_, ?_, lookupSplit_is_night _ _ hpin⟩
  · rw [halloc]
    refine List.mem_map.mpr ⟨c, ?_, rfl⟩
    exact List.mem_filter.mpr ⟨hc, decide_eq_true hpin⟩
  · rw [hnclusters]
    intro hmem
    rcases List.mem_map.mp hmem with ⟨c2, hc2, heq⟩
    have hk : c2.1 = c.1 := (Prod.ext_iff.mp heq).1
    have hnone : lookupSplit (basename c2.1) = none :=
      (of_decide_eq_true (List.mem_filter.mp hc2).2).1
    rw [hk, hpin] at hnone
    exact Option.noConfusion hnone
  · rw [hdclusters]
    intro hmem
    rcases List.mem_map.mp hmem with ⟨c2, hc2, heq⟩
    have hk : c2.1 = c.1 := (Prod.ext_iff.mp heq).1
    have hnone : lookupSplit (basename c2.1) = none :=
      (of_decide_eq_true (List.mem_filter.mp hc2).2).1
    rw [hk, hpin] at hnone
    exact Option.noConfusion hnone

/-- Witness for C4: pinning `night_bg_003.jpg` (2 images) into `train`. -/
theorem phase1_pinning_witness :
    (phase1 [("night_bg_003.jpg", ["a", "b"])]).st.counts.get Split.train = 2 ∧
    (phase1 [("night_bg_003.jpg", ["a", "b"])]).st.day_counts.get Split.train = 0 ∧
    "night_bg_003.jpg"
      ∈ (phase1 [("night_bg_003.jpg", ["a", "b"])]).st.alloc.get Split.train ∧
    lookupSplit (basename "night_bg_003.jpg") = some Split.train :=
  ⟨((phase1_pinning [("night_bg_003.jpg", ["a", "b"])] Split.train).1).trans
      (by decide),
   (phase1_pinning [("night_bg_003.jpg", ["a", "b"])] Split.train).2.2.1,
   ((phase1_pinning [("night_bg_003.jpg", ["a", "b"])] Split.train).2.2.2.2
      ("night_bg_003.jpg", ["a", "b"]) (by decide) (by decide)).1,
   by decide⟩

/-- C6 counterexample: a cluster whose identity matches neither naming
convention (`mystery_cluster.png`: not pinned, no `night_bg_` prefix) raises
nothing — the allocator is total — and the allocation completes with the
cluster silently classified as a day cluster, counted under the day tag
(`day = 1` in the final train statistics). -/
theorem unresolved_tag_counterexample :
    lookupSplit (basename "mystery_cluster.png") = none ∧
    is_night (basename "mystery_cluster.png") = false ∧
    (allocate_exact_splits [("mystery_cluster.png", ["img_a"])]).1.trainKeys
        = ["mystery_cluster.png"] ∧
    (allocate_exact_splits [("mystery_cluster.png", ["img_a"])]).2 Split.train
        = ⟨1, 0, 1⟩ := by
  decide

theorem Totals.total_bump (t : Totals) (s : Split) (k : ℕ) :
    (t.bump s k).total = t.total + k := by
  cases s <;> simp [Totals.bump, Totals.total] <;> omega

theorem Totals.total_eq_sum_get (t : Totals) :
    t.total = t.get Split.train + t.get Split.val + t.get Split.test := rfl

/-- STEP 2 never touches `day_counts`. -/
theorem phase2_fold_day_counts (cs : List (String × String × ℕ)) :
    ∀ st : AllocState, (cs.foldl phase2_step st).day_counts = st.day_counts := by
  induction cs with
  | nil => intro st; rfl
  | cons c cs ih =>
    intro st
    rw [List.foldl_cons, ih]
    rfl

/-- STEP 3 adds each day cluster's size to the overall day total. -/
theorem phase3_fold_day_total (cs : List (String × String × ℕ)) :
    ∀ st : AllocState,
      (cs.foldl phase3_step st).day_counts.total
        = st.day_counts.total + (cs.map (fun c => c.2.2)).sum := by
  induction cs with
  | nil => intro st; simp
  | cons c cs ih =>
    intro st
    rw [List.foldl_cons, ih]
    simp only [phase3_step, Totals.total_bump, List.map_cons, List.sum_cons]
    omega

/-- C6 amended: `allocate_exact_splits` performs no tag validation and has no
error path; every cluster that matches neither the pin table nor the
`night_bg_` prefix is silently enqueued as a day cluster by STEP 1, and the
final day totals equal the summed sizes of exactly that day queue — such
clusters are always counted under the day tag, never rejected. -/
theorem day_default_classification (inv : List (String × List String)) :
    (∀ c ∈ inv, lookupSplit (basename c.1) = none →
      is_night (basename c.1) = false →
      (c.1, basename c.1, c.2.length) ∈ (phase1 inv).day_clusters) ∧
    ((allocate_exact_splits inv).2 Split.train).day
        + ((allocate_exact_splits inv).2 Split.val).day
        + ((allocate_exact_splits inv).2 Split.test).day
      = ((phase1 inv).day_clusters.map (fun c => c.2.2)).sum := by
  constructor
  · intro c hc hnone hday
    have hdcl : (phase1 inv).day_clusters = dayPool inv := by
      simpa [phase1] using (phase1_fold_spec inv ⟨initAllocState, [], []⟩
        Split.train).2.2.2.2.2
    rw [hdcl]
    refine List.mem_map.mpr ⟨c, ?_, rfl⟩
    exact List.mem_filter.mpr ⟨hc, decide_eq_true ⟨hnone, hday⟩⟩
  · show (let p1 := phase1 inv
      let st2 := (sortBySizeDesc p1.night_clusters).foldl phase2_step p1.st
      let st3 := (sortBySizeDesc p1.day_clusters).foldl phase3_step st2
      st3.day_counts.get Split.train + st3.day_counts.get Split.val
        + st3.day_counts.get Split.test)
      = ((phase1 inv).day_clusters.map (fun c => c.2.2)).sum
    rw [← Totals.total_eq_sum_get, phase3_fold_day_total, phase2_fold_day_counts]
    have hday0 : (phase1 inv).st.day_counts.total = 0 := by
      rw [Totals.total_eq_sum_get]
      have h1 := (phase1_pinning inv Split.train).2.2.1
      have h2 := (phase1_pinning inv Split.val).2.2.1
      have h3 := (phase1_pinning inv Split.test).2.2.1
      omega
    rw [hday0, Nat.zero_add]
    refine List.Perm.sum_eq (List.Perm.map _ ?_)
    exact List.perm_insertionSort _ _

/-- Witness for the amended C6 theorem on a concrete unmatched-tag cluster. -/
theorem day_default_classification_witness :
    (lookupSplit (basename "odd_tag.bmp") = none ∧
      is_night (basename "odd_tag.bmp") = false) ∧
    ("odd_tag.bmp", basename "odd_tag.bmp", 1)
        ∈ (phase1 [("odd_tag.bmp", ["p1"])]).day_clusters ∧
    ((allocate_exact_splits [("odd_tag.bmp", ["p1"])]).2 Split.train).day
        + ((allocate_exact_splits [("odd_tag.bmp", ["p1"])]).2 Split.val).day
        + ((allocate_exact_splits [("odd_tag.bmp", ["p1"])]).2 Split.test).day
      = (((phase1 [("odd_tag.bmp", ["p1"])]).day_clusters).map
          (fun c => c.2.2)).sum :=
  ⟨⟨by decide, by decide⟩,
   (day_default_classification [("odd_tag.bmp", ["p1"])]).1
     ("odd_tag.bmp", ["p1"]) (by decide) (by decide) (by decide),
   (day_default_classification [("odd_tag.bmp", ["p1"])]).2⟩

/-! #### Cluster ownership is a partition (C1) -/

theorem Alloc.count_allKeys_push (a : Alloc) (s : Split) (key k : String) :
    ((a.push s key).allKeys).count k
      = (a.allKeys).count k + List.count k [key] := by
  cases s <;>
    simp [Alloc.push, Alloc.allKeys, List.count_append, List.count_cons] <;>
    omega

/-- Each STEP 2 iteration hands exactly one cluster key to exactly one split. -/
theorem phase2_fold_count (cs : List (String × String × ℕ)) :
    ∀ (st : AllocState) (k : String),
      (((cs.foldl phase2_step st).alloc.allKeys).count k)
        = ((st.alloc.allKeys).count k) + ((cs.map Prod.fst).count k) := by
  induction cs with
  | nil => intro st k; simp
  | cons c cs ih =>
    intro st k
    rw [List.foldl_cons, ih]
    have hstep : (phase2_step st c).alloc
        = st.alloc.push (argmax_split (deficit st)) c.1 := rfl
    rw [hstep, Alloc.count_allKeys_push, List.map_cons]
    simp only [List.count_cons, List.count_nil]
    by_cases hb : (c.1 == k) = true <;> simp [hb] <;> omega

/-- Each STEP 3 iteration likewise hands exactly one key to one split. -/
theorem phase3_fold_count (cs : List (String × String × ℕ)) :
    ∀ (st : AllocState) (k : String),
      (((cs.foldl phase3_step st).alloc.allKeys).count k)
        = ((st.alloc.allKeys).count k) + ((cs.map Prod.fst).count k) := by
  induction cs with
  | nil => intro st k; simp
  | cons c cs ih =>
    intro st k
    rw [List.foldl_cons, ih]
    have hstep : (phase3_step st c).alloc
        = st.alloc.push (argmax_split
            (fun s => (st.night_counts.get s : ℤ) - (st.day_counts.get s : ℤ)))
            c.1 := rfl
    rw [hstep, Alloc.count_allKeys_push, List.map_cons]
    simp only [List.count_cons, List.count_nil]
    by_cases hb : (c.1 == k) = true <;> simp [hb] <;> omega

/-- STEP 1's five-way case split (pinned to train/val/test, night queue, day
queue) is exhaustive and mutually exclusive, so the key counts add up to the
inventory's key count. -/
theorem partition_count (inv : List (String × List String)) (k : String) :
    (((pinnedTo inv Split.train).map Prod.fst).count k)
      + (((pinnedTo inv Split.val).map Prod.fst).count k)
      + (((pinnedTo inv Split.test).map Prod.fst).count k)
      + (((nightPool inv).map Prod.fst).count k)
      + (((dayPool inv).map Prod.fst).count k)
    = ((inv.map Prod.fst).count k) := by
  induction inv with
  | nil => simp [pinnedTo, nightPool, dayPool]
  | cons c inv ih =>
    rcases hlk : lookupSplit (basename c.1) with _ | s0
    · cases hni : is_night (basename c.1) with
      | false =>
        have e1 : ∀ s : Split, pinnedTo (c :: inv) s = pinnedTo inv s := by
          intro s
          simp [pinnedTo, List.filter_cons, hlk]
        have e2 : nightPool (c :: inv) = nightPool inv := by
          simp [nightPool, List.filter_cons, hlk, hni]
        have e3 : dayPool (c :: inv)
            = (c.1, basename c.1, c.2.length) :: dayPool inv := by
          simp [dayPool, List.filter_cons, hlk, hni]
        rw [e1, e1, e1, e2, e3, List.map_cons, List.count_cons, List.map_cons,
          List.count_cons]
        dsimp only
        omega
      | true =>
        have e1 : ∀ s : Split, pinnedTo (c :: inv) s = pinnedTo inv s := by
          intro s
          simp [pinnedTo, List.filter_cons, hlk]
        have e2 : nightPool (c :: inv)
            = (c.1, basename c.1, c.2.length) :: nightPool inv := by
          simp [nightPool, List.filter_cons, hlk, hni]
        have e3 : dayPool (c :: inv) = dayPool inv := by
          simp [dayPool, List.filter_cons, hlk, hni]
        rw [e1, e1, e1, e2, e3, List.map_cons, List.count_cons, List.map_cons,
          List.count_cons]
        dsimp only
        omega
    · have e2 : nightPool (c :: inv) = nightPool inv := by
        simp [nightPool, List.filter_cons, hlk]
      have e3 : dayPool (c :: inv) = dayPool inv := by
        simp [dayPool, List.filter_cons, hlk]
      have epin : ∀ s : Split, s0 ≠ s → pinnedTo (c :: inv) s = pinnedTo inv s := by
        intro s hs
        simp only [pinnedTo, List.filter_cons]
        rw [hlk]
        simp [hs]
      have epin2 : pinnedTo (c :: inv) s0 = c :: pinnedTo inv s0 := by
        simp [pinnedTo, List.filter_cons, hlk]
      cases s0 with
      | train =>
        rw [epin2, epin Split.val (by simp), epin Split.test (by simp), e2, e3,
          List.map_cons, List.count_cons, List.map_cons, List.count_cons]
        omega
      | val =>
        rw [epin2, epin Split.train (by simp), epin Split.test (by simp), e2, e3,
          List.map_cons, List.count_cons, List.map_cons, List.count_cons]
        omega
      | test =>
        rw [epin2, epin Split.train (by simp), epin Split.val (by simp), e2, e3,
          List.map_cons, List.count_cons, List.map_cons, List.count_cons]
        omega

/-- Key-count preservation across the whole allocator: after the three
phases, every key occurs in the combined ownership lists exactly as often as
in the inventory. -/
theorem allocate_keys_count (inv : List (String × List String)) (k : String) :
    (((allocate_exact_splits inv).1.allKeys).count k)
      = ((inv.map Prod.fst).count k) := by
  show ((((sortBySizeDesc (phase1 inv).day_clusters).foldl phase3_step
      ((sortBySizeDesc (phase1 inv).night_clusters).foldl phase2_step
        (phase1 inv).st)).alloc.allKeys).count k) = _
  rw [phase3_fold_count, phase2_fold_count]
  have hn : (((sortBySizeDesc (phase1 inv).night_clusters).map Prod.fst).count k)
      = (((phase1 inv).night_clusters.map Prod.fst).count k) :=
    List.Perm.count_eq (List.Perm.map _ (List.perm_insertionSort _ _)) k
  have hd : (((sortBySizeDesc (phase1 inv).day_clusters).map Prod.fst).count k)
      = (((phase1 inv).day_clusters.map Prod.fst).count k) :=
    List.Perm.count_eq (List.Perm.map _ (List.perm_insertionSort _ _)) k
  rw [hn, hd]
  have hnp : (phase1 inv).night_clusters = nightPool inv := by
    simpa [phase1] using (phase1_fold_spec inv ⟨initAllocState, [], []⟩
      Split.train).2.2.2.2.1
  have hdp : (phase1 inv).day_clusters = dayPool inv := by
    simpa [phase1] using (phase1_fold_spec inv ⟨initAllocState, [], []⟩
      Split.train).2.2.2.2.2
  have halloc : (phase1 inv).st.alloc.allKeys
      = (pinnedTo inv Split.train).map Prod.fst
        ++ (pinnedTo inv Split.val).map Prod.fst
        ++ (pinnedTo inv Split.test).map Prod.fst := by
    have h1 := (phase1_pinning inv Split.train).2.2.2.1
    have h2 := (phase1_pinning inv Split.val).2.2.2.1
    have h3 := (phase1_pinning inv Split.test).2.2.2.1
    show (phase1 inv).st.alloc.trainKeys ++ (phase1 inv).st.alloc.valKeys
        ++ (phase1 inv).st.alloc.testKeys = _
    rw [show (phase1 inv).st.alloc.trainKeys
          = (phase1 inv).st.alloc.get Split.train from rfl, h1,
        show (phase1 inv).st.alloc.valKeys
          = (phase1 inv).st.alloc.get Split.val from rfl, h2,
        show (phase1 inv).st.alloc.testKeys
          = (phase1 inv).st.alloc.get Split.test from rfl, h3]
  rw [hnp, hdp, halloc, List.count_append, List.count_append]
  have := partition_count inv k
  omega

/-- C1: the three ownership lists produced by `allocate_exact_splits` are
pairwise disjoint and jointly cover the inventory exactly — every cluster key
occurs exactly once across train ++ val ++ test (so no cluster is owned by
two partitions or twice by one), nothing outside the inventory is owned, and
each owned cluster contributes all of its member images to the owning
partition's gathered image list. -/
theorem allocate_partition (inv : List (String × List String))
    (hnd : (inv.map Prod.fst).Nodup) :
    (∀ k ∈ inv.map Prod.fst,
      (((allocate_exact_splits inv).1.allKeys).count k) = 1) ∧
    (∀ k ∈ (allocate_exact_splits inv).1.allKeys, k ∈ inv.map Prod.fst) ∧
    (∀ k ∈ inv.map Prod.fst, ∀ s : Split,
      k ∈ (allocate_exact_splits inv).1.get s →
      ∀ img ∈ (List.lookup k inv).getD [],
        img ∈ gather inv (allocate_exact_splits inv).1 s) := by
  refine ⟨?_, ?_, ?_⟩
  · intro k hk
    rw [allocate_keys_count]
    exact le_antisymm (List.nodup_iff_count_le_one.mp hnd k)
      (List.count_pos_iff.mpr hk)
  · intro k hk
    have h1 : 0 < ((allocate_exact_splits inv).1.allKeys).count k :=
      List.count_pos_iff.mpr hk
    rw [allocate_keys_count] at h1
    exact List.count_pos_iff.mp h1
  · intro k _ s hks img himg
    exact List.mem_flatten.mpr ⟨(List.lookup k inv).getD [],
      List.mem_map.mpr ⟨k, hks, rfl⟩, himg⟩

/-- Witness for C1 on a two-cluster inventory (one pinned, one day). -/
theorem allocate_partition_witness :
    (([("night_bg_003.jpg", ["a"]), ("foo.jpg", ["b"])].map
        (Prod.fst (β := List String))).Nodup) ∧
    (((allocate_exact_splits
        [("night_bg_003.jpg", ["a"]), ("foo.jpg", ["b"])]).1.allKeys).count
          "foo.jpg") = 1 :=
  ⟨by decide,
   (allocate_partition [("night_bg_003.jpg", ["a"]), ("foo.jpg", ["b"])]
      (by decide)).1 "foo.jpg" (by decide)⟩

/-- C9: the whole split pipeline (capping with the seeded shuffle, the
three-phase allocation, and the seeded output shuffle/rendering) is a pure
function of the inventory, the seed and the deterministic generator — two
runs on equal inputs produce equal partition membership, equal statistics and
byte-identical file contents.  The embedding makes the hidden `random` state
explicit: `seedInit` builds the generator state from the seed exactly as
`random.seed` does, and `shuffleFn` threads it as `random.shuffle` does, so
no other state influences the result. -/
theorem allocator_deterministic {R : Type} (seedInit : ℕ → R)
    (shuffleFn : R → List String → List String × R)
    (inv1 inv2 : List (String × List String)) (seed1 seed2 : ℕ)
    (hinv : inv1 = inv2) (hseed : seed1 = seed2) :
    run_split_pipeline seedInit shuffleFn inv1 seed1
      = run_split_pipeline seedInit shuffleFn inv2 seed2 := by
  rw [hinv, hseed]

/-- Witness for C9 with a concrete generator (identity shuffle) and input. -/
theorem allocator_deterministic_witness :
    ([("night_bg_003.jpg", ["a", "b"])]
        = ([("night_bg_003.jpg", ["a", "b"])] : List (String × List String))
      ∧ (42 : ℕ) = 42) ∧
    run_split_pipeline (fun _ => ()) (fun r l => (l, r))
        [("night_bg_003.jpg", ["a", "b"])] 42
      = run_split_pipeline (fun _ => ()) (fun r l => (l, r))
        [("night_bg_003.jpg", ["a", "b"])] 42 :=
  ⟨⟨rfl, rfl⟩,
   allocator_deterministic (fun _ => ()) (fun r l => (l, r)) _ _ 42 42 rfl rfl⟩

end FYP
